import Mathlib

/-!
Verification development for the `canalyzer` Arduino sketch
(`src/canalyzer.ino`).

The sketch initializes a CAN controller in `setup`, printing a result line
and a static banner, and then `loop` polls `mcp2515_check_message`, calls
`mcp2515_get_message` when a frame is pending, and prints the frame as
`ID: <hex-id> Data: <hex-bytes>`.

We shallow-embed the formatting code (Arduino `Serial.print(n, HEX)` and
`sprintf "%02X"`) as pure functions on `Nat`, the frame struct `tCAN` as a
structure, and the `setup`/`loop` control flow as a trace-producing function
over an oracle describing the adapter's answers in each iteration.
-/

namespace Canalyzer

/-- Uppercase hexadecimal digit character for a value in `[0, 15]`
(Arduino's `Print::printNumber` and C's `%X` both use uppercase `A`-`F`). -/
def hexDigit (n : Nat) : Char :=
  if n < 10 then Char.ofNat (48 + n) else Char.ofNat (55 + n)

/-- Fuel-indexed digit extraction: most significant digit first, as in
Arduino `Serial.print(n, HEX)` which prints the minimal digit string. -/
def hexCharsAux : Nat → Nat → List Char
  | 0, _ => []
  | fuel + 1, n =>
      if n < 16 then [hexDigit n]
      else hexCharsAux fuel (n / 16) ++ [hexDigit (n % 16)]

/-- The digit list printed by `Serial.print(n, HEX)`: minimal uppercase hex,
and `"0"` for zero. Fuel `n + 1` always suffices. -/
def hexChars (n : Nat) : List Char :=
  hexCharsAux (n + 1) n

/-- The characters written into the local buffer by `sprintf(data, "%02X", b)`:
the minimal hex digits of `b`, left-padded with zeros to width 2. -/
def sprintf02X (b : Nat) : List Char :=
  let ds := hexChars b
  if ds.length < 2 then List.replicate (2 - ds.length) '0' ++ ds else ds

/-- Size in chars of the local buffer `char data[3]` in the byte-printing
loop of `loop` (`src/canalyzer.ino` line 36). -/
def sprintfBufSize : Nat := 3

/-- The `tCAN` message struct as used by the sketch: `message.id`,
`message.header.length` and the fixed 8-byte buffer `message.data`.
Machine integers are modelled as `Nat`; validity bounds are a predicate. -/
structure tCAN where
  id : Nat
  length : Nat
  data : List Nat
deriving DecidableEq, Repr

/-- A valid received frame: identifier in 29-bit range, payload length at
most 8, the buffer has exactly 8 byte-sized cells. -/
def ValidFrame (m : tCAN) : Prop :=
  m.id < 2 ^ 29 ∧ m.length ≤ 8 ∧ m.data.length = 8 ∧ ∀ b ∈ m.data, b < 256

instance (m : tCAN) : Decidable (ValidFrame m) := by
  unfold ValidFrame; infer_instance

/-- The payload bytes the byte loop actually reads: `data[0]` through
`data[length - 1]`. -/
def payloadBytes (m : tCAN) : List Nat :=
  m.data.take m.length

/-- Characters produced by the byte-printing loop: each payload byte through
`sprintf "%02X"`, concatenated in order with no separators. -/
def bytesHex : List Nat → List Char
  | [] => []
  | b :: rest => sprintf02X b ++ bytesHex rest

/-- The full line emitted for one received frame by `loop`
(`src/canalyzer.ino` lines 30-40): `Serial.print("ID: ")`,
`Serial.print(message.id, HEX)`, `Serial.print(" ")`,
`Serial.print("Data: ")`, the byte loop, then `Serial.println("")`. -/
def formatFrame (m : tCAN) : String :=
  "ID: " ++ String.mk (hexChars m.id) ++ " " ++ "Data: " ++
    String.mk (bytesHex (payloadBytes m)) ++ "\n"

/-- Apostrophe character (used in the failure message string). -/
def apos : Char := Char.ofNat 39

/-- The line printed by `setup` for the `Canbus.init` result:
`CAN Init ok` on success, the failure message otherwise
(`src/canalyzer.ino` lines 11-14). -/
def initResultLine (ok : Bool) : String :=
  if ok then "CAN Init ok" else "Can" ++ String.mk [apos] ++ "t init CAN"

/-- The static banner `setup` always prints (`src/canalyzer.ino` line 16). -/
def testLine : String := "CAN Read - Test receiving of CAN Bus message"

/-- Observable events of a run: a `mcp2515_check_message` call with its
result, a `mcp2515_get_message` call with its result, or a string written
to the serial output. -/
inductive Event where
  | checkMessage (result : Bool)
  | getMessage (result : Option tCAN)
  | output (s : String)
deriving DecidableEq, Repr

/-- The adapter's behaviour during one `loop` iteration: what
`mcp2515_check_message` returns, and what `mcp2515_get_message` would
return if called (`none` models a false return that leaves no frame). -/
structure AdapterStep where
  pending : Bool
  frame : Option tCAN
deriving DecidableEq, Repr

/-- One iteration of `loop` (`src/canalyzer.ino` lines 20-43): query
`mcp2515_check_message`; if true, call `mcp2515_get_message`; if that
yields a frame, print the formatted line. -/
def loopIter (a : AdapterStep) : List Event :=
  if a.pending then
    Event.checkMessage true :: Event.getMessage a.frame ::
      (match a.frame with
       | some m => [Event.output (formatFrame m)]
       | none => [])
  else [Event.checkMessage false]

/-- The Arduino runtime calling `loop` once per adapter step, in order. -/
def runLoop : List AdapterStep → List Event
  | [] => []
  | a :: rest => loopIter a ++ runLoop rest

/-- The events of `setup` (`src/canalyzer.ino` lines 7-18): the init result
line and the static banner, each via `Serial.println` (which appends a line
terminator, modelled as a newline). -/
def setupEvents (ok : Bool) : List Event :=
  [Event.output (initResultLine ok ++ "\n"), Event.output (testLine ++ "\n")]

/-- A whole run: `setup` once with the given `Canbus.init` result, then
`loop` repeatedly. Note the source never consults the init result again:
`loop` runs the same way whether init succeeded or failed. -/
def runProgram (ok : Bool) (steps : List AdapterStep) : List Event :=
  setupEvents ok ++ runLoop steps

/-- The strings written to the serial output, in order. -/
def outputsOf : List Event → List String
  | [] => []
  | Event.output s :: rest => s :: outputsOf rest
  | _ :: rest => outputsOf rest

/-- Number of `mcp2515_check_message` calls in a trace. -/
def countCheck : List Event → Nat
  | [] => 0
  | Event.checkMessage _ :: rest => countCheck rest + 1
  | _ :: rest => countCheck rest

/-- Number of `mcp2515_get_message` calls in a trace. -/
def countGet : List Event → Nat
  | [] => 0
  | Event.getMessage _ :: rest => countGet rest + 1
  | _ :: rest => countGet rest

/-- The sample frame from the spec scenario: identifier `0x7DF`, payload
`[0x02, 0x01, 0x0C]` inside the 8-byte buffer. -/
def exFrame : tCAN :=
  { id := 0x7DF, length := 3, data := [2, 1, 12, 0, 0, 0, 0, 0] }

/-- A second frame agreeing with `exFrame` on identifier, length and the
first `length` buffer cells, but differing in the unread cells. -/
def exFrameB : tCAN :=
  { id := 0x7DF, length := 3, data := [2, 1, 12, 99, 88, 77, 66, 55] }

/-- A frame with an empty payload. -/
def emptyFrame : tCAN :=
  { id := 0x123, length := 0, data := [0, 0, 0, 0, 0, 0, 0, 0] }

/-- Modelled from the spec: value of an uppercase hex digit character
(used only to state that the printed text decodes back to the number). -/
def hexVal (c : Char) : Nat :=
  if c.toNat ≤ 57 then c.toNat - 48 else c.toNat - 55

/-- Modelled from the spec: read a string of hex digit characters back as
an unsigned integer, most significant digit first. -/
def fromHex (l : List Char) : Nat :=
  l.foldl (fun acc c => 16 * acc + hexVal c) 0

/-- Modelled from the spec: re-parse the data segment, decoding each
consecutive pair of hex digits as one byte. -/
def parsePairs : List Char → List Nat
  | c1 :: c2 :: rest => (16 * hexVal c1 + hexVal c2) :: parsePairs rest
  | _ => []

/-- Modelled from the spec: a character is an uppercase hexadecimal digit
(`0`-`9` or `A`-`F`). -/
def UpperHexDigit (c : Char) : Prop :=
  ('0' ≤ c ∧ c ≤ '9') ∨ ('A' ≤ c ∧ c ≤ 'F')

instance (c : Char) : Decidable (UpperHexDigit c) := by
  unfold UpperHexDigit; infer_instance

lemma hexCharsAux_congr :
    ∀ (f1 f2 n : Nat), n < f1 → n < f2 → hexCharsAux f1 n = hexCharsAux f2 n := by
  intro f1
  induction f1 with
  | zero => intro f2 n h1 _; omega
  | succ f1 ih =>
    intro f2 n h1 h2
    cases f2 with
    | zero => omega
    | succ f2 =>
      by_cases hn : n < 16
      · simp [hexCharsAux, hn]
      · have hdiv : n / 16 < n := Nat.div_lt_self (by omega) (by omega)
        simp only [hexCharsAux, if_neg hn]
        rw [ih f2 (n / 16) (by omega) (by omega)]

lemma hexChars_small {n : Nat} (h : n < 16) : hexChars n = [hexDigit n] := by
  simp [hexChars, hexCharsAux, h]

lemma hexCharsAux_succ (fuel n : Nat) :
    hexCharsAux (fuel + 1) n =
      if n < 16 then [hexDigit n] else hexCharsAux fuel (n / 16) ++ [hexDigit (n % 16)] :=
  rfl

lemma hexChars_step {n : Nat} (h : 16 ≤ n) :
    hexChars n = hexChars (n / 16) ++ [hexDigit (n % 16)] := by
  have hdiv : n / 16 < n := Nat.div_lt_self (by omega) (by omega)
  show hexCharsAux (n + 1) n = hexCharsAux (n / 16 + 1) (n / 16) ++ [hexDigit (n % 16)]
  rw [hexCharsAux_succ, if_neg (by omega : ¬ n < 16)]
  rw [hexCharsAux_congr n (n / 16 + 1) (n / 16) (by omega) (by omega)]

lemma hexChars_ne_nil (n : Nat) : hexChars n ≠ [] := by
  by_cases h : n < 16
  · rw [hexChars_small h]; simp
  · rw [hexChars_step (by omega)]; simp

lemma hexDigit_upper : ∀ d : Fin 16, UpperHexDigit (hexDigit d.val) := by decide

lemma hexDigit_ne_zero : ∀ d : Fin 16, d.val ≠ 0 → hexDigit d.val ≠ '0' := by decide

lemma hexVal_hexDigit : ∀ d : Fin 16, hexVal (hexDigit d.val) = d.val := by decide

lemma hexVal_hexDigit_nat {d : Nat} (h : d < 16) : hexVal (hexDigit d) = d :=
  hexVal_hexDigit ⟨d, h⟩

lemma hexChars_digits (n : Nat) : ∀ c ∈ hexChars n, ∃ d, d < 16 ∧ c = hexDigit d := by
  induction n using Nat.strong_induction_on with
  | _ n ih =>
    by_cases h : n < 16
    · rw [hexChars_small h]
      intro c hc
      simp at hc
      exact ⟨n, h, hc⟩
    · rw [hexChars_step (by omega)]
      intro c hc
      rcases List.mem_append.1 hc with hc | hc
      · exact ih (n / 16) (Nat.div_lt_self (by omega) (by omega)) c hc
      · simp at hc
        exact ⟨n % 16, Nat.mod_lt _ (by omega), hc⟩

lemma hexChars_head_ne_zero (n : Nat) (h : n ≠ 0) : (hexChars n).head? ≠ some '0' := by
  induction n using Nat.strong_induction_on with
  | _ n ih =>
    by_cases h16 : n < 16
    · rw [hexChars_small h16]
      simp only [List.head?, ne_eq, Option.some.injEq]
      exact hexDigit_ne_zero ⟨n, h16⟩ h
    · rw [hexChars_step (by omega)]
      obtain ⟨a, t, ht⟩ := List.exists_cons_of_ne_nil (hexChars_ne_nil (n / 16))
      have hdiv : n / 16 < n := Nat.div_lt_self (by omega) (by omega)
      have hne : n / 16 ≠ 0 :=
        Nat.pos_iff_ne_zero.mp (Nat.div_pos (by omega) (by omega))
      rw [ht]
      have := ih (n / 16) hdiv hne
      rw [ht] at this
      simpa using this

lemma foldl_hexChars (n : Nat) :
    ∀ acc, List.foldl (fun acc c => 16 * acc + hexVal c) acc (hexChars n) =
      acc * 16 ^ (hexChars n).length + n := by
  induction n using Nat.strong_induction_on with
  | _ n ih =>
    intro acc
    by_cases h : n < 16
    · rw [hexChars_small h]
      simp [List.foldl, hexVal_hexDigit ⟨n, h⟩]
      ring
    · have hdiv : n / 16 < n := Nat.div_lt_self (by omega) (by omega)
      rw [hexChars_step (by omega)]
      rw [List.foldl_append]
      rw [ih (n / 16) hdiv acc]
      simp [List.foldl, hexVal_hexDigit ⟨n % 16, Nat.mod_lt _ (by omega)⟩]
      have hmod := Nat.div_add_mod n 16
      ring_nf
      omega

lemma fromHex_hexChars (n : Nat) : fromHex (hexChars n) = n := by
  have := foldl_hexChars n 0
  simpa [fromHex] using this

set_option maxRecDepth 4000 in
lemma sprintf02X_eq_fin :
    ∀ b : Fin 256, sprintf02X b.val = [hexDigit (b.val / 16), hexDigit (b.val % 16)] := by
  decide

lemma sprintf02X_eq {b : Nat} (h : b < 256) :
    sprintf02X b = [hexDigit (b / 16), hexDigit (b % 16)] :=
  sprintf02X_eq_fin ⟨b, h⟩

lemma sprintf02X_len {b : Nat} (h : b < 256) : (sprintf02X b).length = 2 := by
  rw [sprintf02X_eq h]; rfl

lemma parsePairs_bytesHex :
    ∀ l : List Nat, (∀ b ∈ l, b < 256) → parsePairs (bytesHex l) = l := by
  intro l
  induction l with
  | nil => intro _; rfl
  | cons b rest ih =>
    intro h
    have hb : b < 256 := h b (by simp)
    rw [bytesHex, sprintf02X_eq hb]
    show parsePairs (hexDigit (b / 16) :: hexDigit (b % 16) :: bytesHex rest) = b :: rest
    rw [parsePairs]
    rw [hexVal_hexDigit_nat (by omega : b / 16 < 16),
      hexVal_hexDigit_nat (by omega : b % 16 < 16)]
    rw [ih (fun x hx => h x (by simp [hx]))]
    congr 1
    omega

lemma take_eq_of_get? {α : Type} :
    ∀ (n : Nat) (l1 l2 : List α),
      (∀ i, i < n → l1.get? i = l2.get? i) → l1.take n = l2.take n := by
  intro n
  induction n with
  | zero => intro l1 l2 _; simp
  | succ n ih =>
    intro l1 l2 h
    cases l1 with
    | nil =>
      cases l2 with
      | nil => rfl
      | cons b t2 => have := h 0 (by omega); simp [List.get?] at this
    | cons a t1 =>
      cases l2 with
      | nil => have := h 0 (by omega); simp [List.get?] at this
      | cons b t2 =>
        have h0 := h 0 (by omega)
        simp only [List.get?] at h0
        have hab : a = b := by simpa using h0
        simp only [List.take, hab]
        rw [ih t1 t2 (fun i hi => by
          have := h (i + 1) (by omega)
          simpa [List.get?] using this)]

lemma countCheck_loopIter (a : AdapterStep) : countCheck (loopIter a) = 1 := by
  cases a with
  | mk p f => cases p <;> cases f <;> simp [loopIter, countCheck]

lemma countCheck_append (l1 l2 : List Event) :
    countCheck (l1 ++ l2) = countCheck l1 + countCheck l2 := by
  induction l1 with
  | nil => simp [countCheck]
  | cons e t ih =>
    cases e with
    | checkMessage b => simp [countCheck, ih]; omega
    | getMessage r => simp [countCheck, ih]
    | output s => simp [countCheck, ih]

lemma countCheck_runLoop (steps : List AdapterStep) :
    countCheck (runLoop steps) = steps.length := by
  induction steps with
  | nil => rfl
  | cons a t ih =>
    simp [runLoop, countCheck_append, countCheck_loopIter, ih]
    omega

/-- C1: for every valid frame, the emitted line is `ID: `, the identifier
in minimal uppercase hex (no `0x`, no zero-padding: every character is an
uppercase hex digit, the leading digit is not `0` unless the identifier is
`0`, and the digits decode back to the identifier), a space, `Data: `, the
payload bytes each as exactly two uppercase zero-padded hex digits in
order, and a newline; in particular the `0x7DF` / `[0x02, 0x01, 0x0C]`
frame yields `ID: 7DF Data: 02010C`. -/
theorem format_line_exact (m : tCAN) (h : ValidFrame m) :
    formatFrame m =
      "ID: " ++ String.mk (hexChars m.id) ++ " " ++ "Data: " ++
        String.mk (bytesHex (payloadBytes m)) ++ "\n" ∧
    (∀ c ∈ hexChars m.id, UpperHexDigit c) ∧
    (m.id ≠ 0 → (hexChars m.id).head? ≠ some '0') ∧
    fromHex (hexChars m.id) = m.id ∧
    (∀ b ∈ payloadBytes m,
      sprintf02X b = [hexDigit (b / 16), hexDigit (b % 16)] ∧
      (sprintf02X b).length = 2 ∧
      (∀ c ∈ sprintf02X b, UpperHexDigit c) ∧
      fromHex (sprintf02X b) = b) ∧
    formatFrame exFrame = "ID: 7DF Data: 02010C\n" := by
  refine ⟨rfl, ?_, hexChars_head_ne_zero m.id, fromHex_hexChars m.id, ?_, by decide⟩
  · intro c hc
    obtain ⟨d, hd, rfl⟩ := hexChars_digits m.id c hc
    exact hexDigit_upper ⟨d, hd⟩
  · intro b hb
    have hb256 : b < 256 := h.2.2.2 b (List.take_subset _ _ hb)
    refine ⟨sprintf02X_eq hb256, sprintf02X_len hb256, ?_, ?_⟩
    · intro c hc
      rw [sprintf02X_eq hb256] at hc
      simp at hc
      rcases hc with rfl | rfl
      · exact hexDigit_upper ⟨b / 16, by omega⟩
      · exact hexDigit_upper ⟨b % 16, by omega⟩
    · rw [sprintf02X_eq hb256]
      show fromHex [hexDigit (b / 16), hexDigit (b % 16)] = b
      simp only [fromHex, List.foldl,
        hexVal_hexDigit_nat (show b / 16 < 16 by omega),
        hexVal_hexDigit_nat (show b % 16 < 16 by omega)]
      omega

/-- C1 witness: the theorem applied to the concrete spec-scenario frame. -/
theorem format_line_exact_witness :
    ValidFrame exFrame ∧ fromHex (hexChars exFrame.id) = exFrame.id :=
  ⟨by decide, (format_line_exact exFrame (by decide)).2.2.2.1⟩

/-- C2 counterexample: with a failed init and an adapter holding one
pending frame, the program trace still contains one `mcp2515_check_message`
call, one `mcp2515_get_message` call, and the frame's data line — refuting
"zero calls and no further data lines" at this concrete input. -/
theorem init_failure_inert_cex :
    ¬ (countCheck (runProgram false [⟨true, some exFrame⟩]) = 0 ∧
       countGet (runProgram false [⟨true, some exFrame⟩]) = 0 ∧
       formatFrame exFrame ∉ outputsOf (runProgram false [⟨true, some exFrame⟩])) := by
  decide

/-- C2 amended: if the single `Canbus.init` call fails, the failure line is
printed at startup, but the loop is not gated on the init result — it still
calls `mcp2515_check_message` once per iteration, and emits data lines
whenever the adapter reports and yields frames. -/
theorem init_failure_still_polls (steps : List AdapterStep) :
    runProgram false steps =
      Event.output (initResultLine false ++ "\n") ::
        Event.output (testLine ++ "\n") :: runLoop steps ∧
    countCheck (runLoop steps) = steps.length ∧
    (∀ m : tCAN, outputsOf (runLoop [⟨true, some m⟩]) = [formatFrame m]) :=
  ⟨rfl, countCheck_runLoop steps, fun _ => rfl⟩

/-- C3: within one `loop` iteration, `mcp2515_get_message` is called only
if the `mcp2515_check_message` query of that same iteration returned true
(and that true query is part of the iteration's trace). -/
theorem receive_only_after_check (a : AdapterStep) (r : Option tCAN)
    (h : Event.getMessage r ∈ loopIter a) :
    a.pending = true ∧ Event.checkMessage true ∈ loopIter a := by
  cases a with
  | mk p f =>
    cases p
    · simp [loopIter] at h
    · exact ⟨rfl, by cases f <;> simp [loopIter]⟩

/-- C3 witness: the theorem applied to a concrete pending-frame step. -/
theorem receive_only_after_check_witness :
    (⟨true, some exFrame⟩ : AdapterStep).pending = true ∧
      Event.checkMessage true ∈ loopIter ⟨true, some exFrame⟩ :=
  receive_only_after_check ⟨true, some exFrame⟩ (some exFrame) (by decide)

/-- C4: for every valid frame, decoding each consecutive pair of hex digits
of the data segment of the formatted line recovers exactly the original
payload bytes (format-then-parse round trip). -/
theorem format_parse_roundtrip (m : tCAN) (h : ValidFrame m) :
    formatFrame m =
      "ID: " ++ String.mk (hexChars m.id) ++ " " ++ "Data: " ++
        String.mk (bytesHex (payloadBytes m)) ++ "\n" ∧
    parsePairs (bytesHex (payloadBytes m)) = payloadBytes m := by
  refine ⟨rfl, parsePairs_bytesHex (payloadBytes m) ?_⟩
  intro b hb
  exact h.2.2.2 b (List.take_subset _ _ hb)

/-- C4 witness: the round trip at the concrete spec-scenario frame. -/
theorem format_parse_roundtrip_witness :
    parsePairs (bytesHex (payloadBytes exFrame)) = payloadBytes exFrame :=
  (format_parse_roundtrip exFrame (by decide)).2

/-- C5: a frame with `payloadLength = 0` still produces the `Data: `
segment, empty and followed immediately by the newline. -/
theorem empty_payload_line (m : tCAN) (h : m.length = 0) :
    formatFrame m = "ID: " ++ String.mk (hexChars m.id) ++ " " ++ "Data: " ++ "\n" := by
  unfold formatFrame payloadBytes
  rw [h]
  simp [bytesHex]

/-- C5 witness: the theorem applied to a concrete empty-payload frame. -/
theorem empty_payload_line_witness :
    formatFrame emptyFrame =
      "ID: " ++ String.mk (hexChars emptyFrame.id) ++ " " ++ "Data: " ++ "\n" :=
  empty_payload_line emptyFrame rfl

/-- C6: the formatter is deterministic (equal frames give identical
strings) and total (every frame yields a string; in this pure embedding it
is side-effect-free by construction). -/
theorem format_deterministic_total :
    (∀ a b : tCAN, a = b → formatFrame a = formatFrame b) ∧
    (∀ m : tCAN, ∃ s : String, formatFrame m = s) :=
  ⟨fun _ _ h => by rw [h], fun m => ⟨formatFrame m, rfl⟩⟩

/-- C6 witness: determinism applied at the concrete spec-scenario frame. -/
theorem format_deterministic_total_witness :
    formatFrame exFrame = formatFrame exFrame :=
  format_deterministic_total.1 exFrame exFrame rfl

/-- C7: every run starts with exactly one init-result line (`CAN Init ok`
on success, the failure message otherwise) followed by the static banner,
in that order, before any polling output. -/
theorem startup_lines (ok : Bool) (steps : List AdapterStep) :
    outputsOf (runProgram ok steps) =
      (initResultLine ok ++ "\n") :: (testLine ++ "\n") :: outputsOf (runLoop steps) ∧
    initResultLine true = "CAN Init ok" ∧
    initResultLine false = "Can" ++ String.mk [apos] ++ "t init CAN" ∧
    testLine = "CAN Read - Test receiving of CAN Bus message" :=
  ⟨rfl, rfl, rfl, rfl⟩

/-- C8: each iteration calls `mcp2515_get_message` at most once and emits
at most one line; a `none` result emits nothing (silently); a yielded frame
emits exactly its line; and two pending frames delivered one per call are
emitted one per iteration, in order. -/
theorem one_line_per_iteration :
    (∀ a : AdapterStep, countGet (loopIter a) ≤ 1) ∧
    (∀ a : AdapterStep, (outputsOf (loopIter a)).length ≤ 1) ∧
    (∀ p : Bool, outputsOf (loopIter ⟨p, none⟩) = []) ∧
    (∀ m : tCAN, outputsOf (loopIter ⟨true, some m⟩) = [formatFrame m]) ∧
    (∀ m1 m2 : tCAN,
      outputsOf (runLoop [⟨true, some m1⟩, ⟨true, some m2⟩]) =
        [formatFrame m1, formatFrame m2]) := by
  refine ⟨?_, ?_, ?_, fun _ => rfl, fun _ _ => rfl⟩
  · intro a
    cases a with
    | mk p f => cases p <;> cases f <;> simp [loopIter, countGet]
  · intro a
    cases a with
    | mk p f => cases p <;> cases f <;> simp [loopIter, outputsOf]
  · intro p
    cases p <;> rfl

/-- C9: the emitted line depends only on the identifier, the length, and
the first `length` cells of the payload buffer — frames agreeing there
format identically even if the unread buffer cells differ. -/
theorem format_noninterference (m1 m2 : tCAN)
    (hid : m1.id = m2.id) (hlen : m1.length = m2.length)
    (hdata : ∀ i, i < m1.length → m1.data.get? i = m2.data.get? i) :
    formatFrame m1 = formatFrame m2 := by
  have hp : payloadBytes m1 = payloadBytes m2 := by
    unfold payloadBytes
    rw [← hlen]
    exact take_eq_of_get? m1.length m1.data m2.data hdata
  unfold formatFrame
  rw [hid, hp]

/-- C9 witness: two concrete frames differing only beyond index
`length - 1` format to the same line. -/
theorem format_noninterference_witness :
    formatFrame exFrame = formatFrame exFrameB :=
  format_noninterference exFrame exFrameB rfl rfl (by decide)

/-- C10: for every byte value below 256, `%02X` yields exactly two
characters, so the two digits plus the terminating NUL fit the 3-char
local buffer `char data[3]`. -/
theorem sprintf_buffer_safe (b : Nat) (h : b < 256) :
    (sprintf02X b).length = 2 ∧ (sprintf02X b).length + 1 ≤ sprintfBufSize := by
  have hl := sprintf02X_len h
  exact ⟨hl, by rw [hl]; decide⟩

/-- C10 witness: the theorem applied at the largest byte value. -/
theorem sprintf_buffer_safe_witness :
    (sprintf02X 255).length = 2 ∧ (sprintf02X 255).length + 1 ≤ sprintfBufSize :=
  sprintf_buffer_safe 255 (by decide)

end Canalyzer
